import Mathlib

/-!
Shallow embedding of the user CRUD service of this repository:
  - src/src/models/user.model.ts   (UserModel.Entity, Create, Update DTOs)
  - src/src/services/user.service.ts (UserService: getAllUsers, getUserById,
    getUserByEmail, createUser, updateUser, deleteUser; plus the static
    throwing variant of getUserById)
  - src/src/utils/database.ts      (schema: users table with AUTOINCREMENT id,
    UNIQUE email, timestamp defaults, and the update_user_timestamp trigger)

The relational store (bun:sqlite) is an external collaborator; it is modelled
from the schema declared in database.ts together with the store contract of
the specification (parameterized INSERT/UPDATE returning the fully
materialized row, DELETE by id, SELECT by id/email, SELECT all ordered by
created_at descending).  Timestamps are ticks of a logical clock carried in
the store state; each write statement advances the clock.
-/

namespace UserApi

/-- A row of the `users` table (UserModel.Entity): id, name, email and the two
timestamps.  Timestamps are modelled as natural-number clock ticks. -/
structure UserRec where
  id : Nat
  name : String
  email : String
  created_at : Nat
  updated_at : Nat
deriving Repr, DecidableEq

/-- CreateUserDTO / UserModel.Create: both fields required. -/
structure CreateUserDTO where
  name : String
  email : String
deriving Repr, DecidableEq

/-- UpdateUserDTO / UserModel.Update: optional fields; `none` models a field
that is `undefined` in the TypeScript patch object. -/
structure UpdateUserDTO where
  name : Option String := none
  email : Option String := none
deriving Repr, DecidableEq

/-- The error kinds the service signals: `notFound` ("User not found"),
`emailExists` ("Email already exists"), and `storeFault` for a store-level
failure such as a violation of the UNIQUE constraint on email. -/
inductive SvcError where
  | notFound
  | emailExists
  | storeFault
deriving Repr, DecidableEq

/-- The store state: the rows of the `users` table, the next AUTOINCREMENT
id, and the logical clock used to stamp timestamps. -/
structure Db where
  rows : List UserRec
  nextId : Nat
  time : Nat
deriving Repr, DecidableEq

/-- The freshly initialized store (initializeSchema on an empty database):
no rows, AUTOINCREMENT starts at 1. -/
def Db.empty : Db := { rows := [], nextId := 1, time := 0 }

/-- `SELECT * FROM users WHERE id = ?` with `query.get`: the first matching
row, if any. -/
def Db.selectById (db : Db) (i : Nat) : Option UserRec :=
  db.rows.find? (fun r => r.id == i)

/-- `SELECT * FROM users WHERE email = ?` with `query.get`. -/
def Db.selectByEmail (db : Db) (e : String) : Option UserRec :=
  db.rows.find? (fun r => r.email == e)

/-- `SELECT * FROM users ORDER BY created_at DESC`. -/
def Db.selectAllByCreatedDesc (db : Db) : List UserRec :=
  db.rows.mergeSort (fun a b => b.created_at ≤ a.created_at)

/-- `INSERT INTO users (name, email) VALUES (?, ?) RETURNING *` against the
schema of database.ts: the store assigns the AUTOINCREMENT id and stamps both
timestamps with the current clock tick; the UNIQUE constraint on email
rejects a duplicate with a store-level fault. -/
def Db.insertUser (db : Db) (nm em : String) : Except SvcError (UserRec × Db) :=
  if db.rows.any (fun r => r.email == em) then
    .error .storeFault
  else
    let t := db.time + 1
    let r : UserRec :=
      { id := db.nextId, name := nm, email := em, created_at := t, updated_at := t }
    .ok (r, { rows := db.rows ++ [r], nextId := db.nextId + 1, time := t })

/-- `UPDATE users SET <supplied subset> WHERE id = ? RETURNING *`: the
update_user_timestamp trigger of database.ts refreshes updated_at, and per
the store contract the fully materialized updated row is returned.  The
UNIQUE constraint on email rejects a row whose new email is already owned by
a different row; an UPDATE matching no row yields no returned row, also a
store-level fault here. -/
def Db.updateRowById (db : Db) (i : Nat) (newName newEmail : Option String) :
    Except SvcError (UserRec × Db) :=
  match db.selectById i with
  | none => .error .storeFault
  | some r =>
    let t := db.time + 1
    let r2 : UserRec :=
      { r with name := newName.getD r.name, email := newEmail.getD r.email, updated_at := t }
    if db.rows.any (fun q => q.id != i && q.email == r2.email) then
      .error .storeFault
    else
      .ok (r2, { rows := db.rows.map (fun q => if q.id == i then r2 else q),
                 nextId := db.nextId, time := t })

/-- `DELETE FROM users WHERE id = ?`. -/
def Db.deleteRowById (db : Db) (i : Nat) : Db :=
  { db with rows := db.rows.filter (fun r => r.id != i) }

/-- UserService.getAllUsers. -/
def getAllUsers (db : Db) : List UserRec :=
  db.selectAllByCreatedDesc

/-- UserService.getUserById (instance variant): nullable result. -/
def getUserById (db : Db) (i : Nat) : Option UserRec :=
  db.selectById i

/-- UserService.getUserByEmail: nullable result, not an error. -/
def getUserByEmail (db : Db) (e : String) : Option UserRec :=
  db.selectByEmail e

/-- Static UserService.getUserById: throws 404 "User not found" when no row
has the requested id. -/
def getUserByIdStatic (db : Db) (i : Nat) : Except SvcError UserRec :=
  match getUserById db i with
  | none => .error .notFound
  | some u => .ok u

/-- UserService.createUser: `if (this.getUserByEmail(data.email)) throw
"Email already exists"`, then INSERT ... RETURNING *. -/
def createUser (db : Db) (data : CreateUserDTO) : Except SvcError (UserRec × Db) :=
  if (getUserByEmail db data.email).isSome then
    .error .emailExists
  else
    db.insertUser data.name data.email

/-- The updateUser uniqueness guard, `data.email && data.email !== user.email`
followed by the getUserByEmail lookup: JavaScript truthiness makes the guard
skip both an absent email field and the empty string. -/
def emailConflict (db : Db) (user : UserRec) (pe : Option String) : Bool :=
  match pe with
  | none => false
  | some e => e != "" && e != user.email && (getUserByEmail db e).isSome

/-- UserService.updateUser: fetch by id (throw "User not found" if absent);
guarded uniqueness check; build the SET list from the fields that are not
undefined; return the fetched row without issuing a write when the SET list
is empty; otherwise UPDATE ... RETURNING *. -/
def updateUser (db : Db) (i : Nat) (data : UpdateUserDTO) :
    Except SvcError (UserRec × Db) :=
  match getUserById db i with
  | none => .error .notFound
  | some user =>
    if emailConflict db user data.email then
      .error .emailExists
    else if data.name == none && data.email == none then
      .ok (user, db)
    else
      db.updateRowById i data.name data.email

/-- UserService.deleteUser: fetch by id (throw "User not found" if absent),
then DELETE and return true. -/
def deleteUser (db : Db) (i : Nat) : Except SvcError (Bool × Db) :=
  match getUserById db i with
  | none => .error .notFound
  | some _ => .ok (true, db.deleteRowById i)

/-- Every row id is below the AUTOINCREMENT counter. -/
def IdsBounded (db : Db) : Prop := ∀ r ∈ db.rows, r.id < db.nextId

/-- Row ids are pairwise distinct (PRIMARY KEY). -/
def IdsUnique (db : Db) : Prop := db.rows.Pairwise (fun a b => a.id ≠ b.id)

/-- Row emails are pairwise distinct (UNIQUE constraint on email). -/
def EmailsUnique (db : Db) : Prop := db.rows.Pairwise (fun a b => a.email ≠ b.email)

/-- Every row timestamp is at most the current clock tick. -/
def TimesBounded (db : Db) : Prop :=
  ∀ r ∈ db.rows, r.created_at ≤ db.time ∧ r.updated_at ≤ db.time

/-- Well-formedness of a store state. -/
def WF (db : Db) : Prop :=
  IdsBounded db ∧ IdsUnique db ∧ EmailsUnique db ∧ TimesBounded db

/-- No present row has the id `i`, and `i` is below the AUTOINCREMENT
counter, so no later insert can produce it. -/
def IdAbsent (i : Nat) (db : Db) : Prop :=
  (∀ q ∈ db.rows, q.id ≠ i) ∧ i < db.nextId

/-- The store states reachable from the freshly initialized store by
successful createUser / updateUser / deleteUser calls (a failed call throws
before any write, leaving the state untouched, which the encoding captures by
returning no state on error). -/
inductive Reachable : Db → Prop where
  | empty : Reachable Db.empty
  | create {db : Db} {d : CreateUserDTO} {r : UserRec} {db2 : Db} :
      Reachable db → createUser db d = .ok (r, db2) → Reachable db2
  | update {db : Db} {i : Nat} {p : UpdateUserDTO} {r : UserRec} {db2 : Db} :
      Reachable db → updateUser db i p = .ok (r, db2) → Reachable db2
  | delete {db : Db} {i : Nat} {b : Bool} {db2 : Db} :
      Reachable db → deleteUser db i = .ok (b, db2) → Reachable db2

/-- Multi-step reachability between two store states by successful service
calls. -/
inductive ReachableFrom : Db → Db → Prop where
  | refl (db : Db) : ReachableFrom db db
  | create {db db2 db3 : Db} {d : CreateUserDTO} {r : UserRec} :
      ReachableFrom db db2 → createUser db2 d = .ok (r, db3) → ReachableFrom db db3
  | update {db db2 db3 : Db} {i : Nat} {p : UpdateUserDTO} {r : UserRec} :
      ReachableFrom db db2 → updateUser db2 i p = .ok (r, db3) → ReachableFrom db db3
  | delete {db db2 db3 : Db} {i : Nat} {b : Bool} :
      ReachableFrom db db2 → deleteUser db2 i = .ok (b, db3) → ReachableFrom db db3

/-- Concrete record: the result of creating Ann on the fresh store. -/
def uAnn : UserRec :=
  { id := 1, name := "Ann", email := "ann@x.com", created_at := 1, updated_at := 1 }

/-- Concrete store holding only Ann, reached by one create. -/
def dbAnn : Db := { rows := [uAnn], nextId := 2, time := 1 }

/-- Concrete record A with a regular email. -/
def uA : UserRec :=
  { id := 1, name := "A", email := "a@x.com", created_at := 1, updated_at := 1 }

/-- Concrete record B, created after A. -/
def uB : UserRec :=
  { id := 2, name := "B", email := "b@x.com", created_at := 2, updated_at := 2 }

/-- Concrete store holding A then B, reached by two creates. -/
def dbAB : Db := { rows := [uA, uB], nextId := 3, time := 2 }

/-- Concrete record whose email is the empty string (createUser accepts it:
the service only checks business uniqueness, not field shape). -/
def uE : UserRec :=
  { id := 1, name := "A", email := "", created_at := 1, updated_at := 1 }

/-- Concrete store holding the empty-email record and B. -/
def dbEB : Db := { rows := [uE, uB], nextId := 3, time := 2 }

/-- Concrete store after deleting Ann: empty rows, but the AUTOINCREMENT
counter and clock keep their values. -/
def dbAnnDel : Db := { rows := [], nextId := 2, time := 1 }

theorem getUserById_mem {db : Db} {i : Nat} {r : UserRec}
    (h : getUserById db i = some r) : r ∈ db.rows ∧ r.id = i := by
  simp only [getUserById, Db.selectById] at h
  refine ⟨List.mem_of_find?_eq_some h, ?_⟩
  simpa using List.find?_some h

theorem getUserByEmail_mem {db : Db} {e : String} {r : UserRec}
    (h : getUserByEmail db e = some r) : r ∈ db.rows ∧ r.email = e := by
  simp only [getUserByEmail, Db.selectByEmail] at h
  refine ⟨List.mem_of_find?_eq_some h, ?_⟩
  simpa using List.find?_some h

theorem getUserById_eq_none {db : Db} {i : Nat} :
    getUserById db i = none ↔ ∀ r ∈ db.rows, r.id ≠ i := by
  simp [getUserById, Db.selectById, List.find?_eq_none]

theorem getUserByEmail_eq_none {db : Db} {e : String} :
    getUserByEmail db e = none ↔ ∀ r ∈ db.rows, r.email ≠ e := by
  simp [getUserByEmail, Db.selectByEmail, List.find?_eq_none]

theorem wf_empty : WF Db.empty := by
  refine ⟨?_, ?_, ?_, ?_⟩ <;> simp [Db.empty, IdsBounded, IdsUnique, EmailsUnique, TimesBounded]

theorem wf_createUser {db : Db} {d : CreateUserDTO} {r : UserRec} {db2 : Db}
    (hwf : WF db) (h : createUser db d = .ok (r, db2)) : WF db2 := by
  obtain ⟨hid, hidu, hem, htm⟩ := hwf
  unfold createUser Db.insertUser at h
  split at h
  · simp at h
  · split at h
    · simp at h
    · rename_i hany
      simp only [Except.ok.injEq, Prod.mk.injEq] at h
      obtain ⟨-, hdb⟩ := h
      subst hdb
      have hany2 : ∀ q ∈ db.rows, q.email ≠ d.email := by
        intro q hq
        by_contra hEq
        exact hany (List.any_eq_true.mpr ⟨q, hq, by simp [hEq]⟩)
      refine ⟨?_, ?_, ?_, ?_⟩
      · intro q hq
        simp only [List.mem_append, List.mem_singleton] at hq
        rcases hq with hq | hq
        · exact Nat.lt_succ_of_lt (hid q hq)
        · subst hq; exact Nat.lt_succ_self _
      · rw [IdsUnique, List.pairwise_append]
        refine ⟨hidu, by simp, ?_⟩
        intro a ha b hb
        simp only [List.mem_singleton] at hb
        subst hb
        exact Nat.ne_of_lt (hid a ha)
      · rw [EmailsUnique, List.pairwise_append]
        refine ⟨hem, by simp, ?_⟩
        intro a ha b hb
        simp only [List.mem_singleton] at hb
        subst hb
        exact hany2 a ha
      · intro q hq
        simp only [List.mem_append, List.mem_singleton] at hq
        rcases hq with hq | hq
        · exact ⟨Nat.le_succ_of_le (htm q hq).1, Nat.le_succ_of_le (htm q hq).2⟩
        · subst hq; exact ⟨Nat.le_refl _, Nat.le_refl _⟩

theorem wf_updateRowById {db : Db} {i : Nat} {nn ne : Option String} {r2 : UserRec} {db2 : Db}
    (hwf : WF db) (h : Db.updateRowById db i nn ne = .ok (r2, db2)) : WF db2 := by
  obtain ⟨hid, hidu, hem, htm⟩ := hwf
  unfold Db.updateRowById at h
  split at h
  · simp at h
  · rename_i user hu
    dsimp only at h
    split at h
    · simp at h
    · rename_i hany
      simp only [Except.ok.injEq, Prod.mk.injEq] at h
      obtain ⟨-, hdb⟩ := h
      subst hdb
      have hu2 : db.rows.find? (fun r => r.id == i) = some user := hu
      have humem : user ∈ db.rows := List.mem_of_find?_eq_some hu2
      have huid : user.id = i := by simpa using List.find?_some hu2
      have hfree : ∀ q ∈ db.rows, q.id ≠ i → q.email ≠ ne.getD user.email := by
        intro q hq hqi hEq
        exact hany (List.any_eq_true.mpr ⟨q, hq, by simp [hqi, hEq]⟩)
      refine ⟨?_, ?_, ?_, ?_⟩
      · intro q hq
        rcases List.mem_map.mp hq with ⟨q0, hq0, rfl⟩
        by_cases hq0i : q0.id = i
        · simpa [hq0i, huid] using hid user humem
        · simpa [hq0i] using hid q0 hq0
      · rw [IdsUnique, List.pairwise_map]
        refine hidu.imp_of_mem ?_
        intro a b ha hb hab
        by_cases hai : a.id = i <;> by_cases hbi : b.id = i
        · exact absurd (hai.trans hbi.symm) hab
        · simpa [hai, hbi, huid] using fun hEq => hbi hEq.symm
        · simp [hai, hbi, huid]
        · simpa [hai, hbi] using hab
      · rw [EmailsUnique, List.pairwise_map]
        refine (hidu.and hem).imp_of_mem ?_
        rintro a b ha hb ⟨habid, habem⟩
        by_cases hai : a.id = i <;> by_cases hbi : b.id = i
        · exact absurd (hai.trans hbi.symm) habid
        · simpa [hai, hbi] using fun hEq => hfree b hb hbi hEq.symm
        · simpa [hai, hbi] using fun hEq => hfree a ha hai hEq
        · simpa [hai, hbi] using habem
      · intro q hq
        rcases List.mem_map.mp hq with ⟨q0, hq0, rfl⟩
        by_cases hq0i : q0.id = i
        · simp only [hq0i, beq_self_eq_true, if_true]
          exact ⟨Nat.le_succ_of_le (htm user humem).1, Nat.le_refl _⟩
        · have := htm q0 hq0
          simp only [hq0i, beq_iff_eq, if_neg hq0i]
          exact ⟨Nat.le_succ_of_le this.1, Nat.le_succ_of_le this.2⟩

theorem wf_updateUser {db : Db} {i : Nat} {p : UpdateUserDTO} {r : UserRec} {db2 : Db}
    (hwf : WF db) (h : updateUser db i p = .ok (r, db2)) : WF db2 := by
  unfold updateUser at h
  split at h
  · simp at h
  · split at h
    · simp at h
    · split at h
      · simp only [Except.ok.injEq, Prod.mk.injEq] at h
        obtain ⟨-, hdb⟩ := h
        subst hdb
        exact hwf
      · exact wf_updateRowById hwf h

theorem wf_deleteUser {db : Db} {i : Nat} {b : Bool} {db2 : Db}
    (hwf : WF db) (h : deleteUser db i = .ok (b, db2)) : WF db2 := by
  obtain ⟨hid, hidu, hem, htm⟩ := hwf
  unfold deleteUser at h
  split at h
  · simp at h
  · simp only [Except.ok.injEq, Prod.mk.injEq] at h
    obtain ⟨-, hdb⟩ := h
    subst hdb
    refine ⟨?_, ?_, ?_, ?_⟩
    · intro q hq
      exact hid q (List.mem_of_mem_filter hq)
    · exact List.Pairwise.sublist (List.filter_sublist _) hidu
    · exact List.Pairwise.sublist (List.filter_sublist _) hem
    · intro q hq
      exact htm q (List.mem_of_mem_filter hq)

theorem wf_of_reachable {db : Db} (h : Reachable db) : WF db := by
  induction h with
  | empty => exact wf_empty
  | create _ hc ih => exact wf_createUser ih hc
  | update _ hc ih => exact wf_updateUser ih hc
  | delete _ hc ih => exact wf_deleteUser ih hc

theorem updateRowById_ok {db : Db} {i : Nat} {user : UserRec} {nn ne : Option String}
    (hu : db.selectById i = some user)
    (hfree : ∀ q ∈ db.rows, q.id ≠ i → q.email ≠ ne.getD user.email) :
    Db.updateRowById db i nn ne =
      .ok ({ user with
              name := nn.getD user.name,
              email := ne.getD user.email,
              updated_at := db.time + 1 },
           { rows := db.rows.map (fun q => if q.id == i then
               { user with
                  name := nn.getD user.name,
                  email := ne.getD user.email,
                  updated_at := db.time + 1 } else q),
             nextId := db.nextId, time := db.time + 1 }) := by
  have hany : (db.rows.any fun q => q.id != i && q.email == ne.getD user.email) = false := by
    by_contra hc
    rw [Bool.not_eq_false, List.any_eq_true] at hc
    obtain ⟨q, hq, hqp⟩ := hc
    simp only [Bool.and_eq_true, bne_iff_ne, beq_iff_eq] at hqp
    exact hfree q hq hqp.1 hqp.2
  unfold Db.updateRowById
  rw [hu]
  dsimp only
  rw [hany]
  simp

theorem emails_free_of_unique {db : Db} {i : Nat} {user : UserRec}
    (hem : EmailsUnique db) (hget : getUserById db i = some user) :
    ∀ q ∈ db.rows, q.id ≠ i → q.email ≠ user.email := by
  intro q hq hqi
  obtain ⟨hmem, hid⟩ := getUserById_mem hget
  have hsymm : Symmetric fun a b : UserRec => a.email ≠ b.email :=
    fun a b h hEq => h hEq.symm
  exact List.Pairwise.forall hsymm hem hq hmem (fun hEq => hqi (by rw [hEq, hid]))

theorem emailConflict_none (db : Db) (user : UserRec) :
    emailConflict db user none = false := rfl

theorem emailConflict_self (db : Db) (user : UserRec) :
    emailConflict db user (some user.email) = false := by
  simp [emailConflict]

theorem emailConflict_empty (db : Db) (user : UserRec) :
    emailConflict db user (some "") = false := by
  simp [emailConflict]

theorem idAbsent_create {db db2 : Db} {d : CreateUserDTO} {r : UserRec} {i : Nat}
    (h : createUser db d = .ok (r, db2)) (hp : IdAbsent i db) : IdAbsent i db2 := by
  obtain ⟨habs, hlt⟩ := hp
  unfold createUser Db.insertUser at h
  split at h
  · simp at h
  · split at h
    · simp at h
    · simp only [Except.ok.injEq, Prod.mk.injEq] at h
      obtain ⟨-, hdb⟩ := h
      subst hdb
      refine ⟨?_, Nat.lt_succ_of_lt hlt⟩
      intro q hq
      simp only [List.mem_append, List.mem_singleton] at hq
      rcases hq with hq | hq
      · exact habs q hq
      · subst hq; exact Nat.ne_of_gt hlt

theorem idAbsent_update {db db2 : Db} {j : Nat} {p : UpdateUserDTO} {r : UserRec} {i : Nat}
    (h : updateUser db j p = .ok (r, db2)) (hp : IdAbsent i db) : IdAbsent i db2 := by
  obtain ⟨habs, hlt⟩ := hp
  unfold updateUser at h
  split at h
  · simp at h
  · split at h
    · simp at h
    · split at h
      · simp only [Except.ok.injEq, Prod.mk.injEq] at h
        obtain ⟨-, hdb⟩ := h
        subst hdb
        exact ⟨habs, hlt⟩
      · unfold Db.updateRowById at h
        split at h
        · simp at h
        · rename_i user2 hu2
          dsimp only at h
          split at h
          · simp at h
          · simp only [Except.ok.injEq, Prod.mk.injEq] at h
            obtain ⟨-, hdb⟩ := h
            subst hdb
            refine ⟨?_, hlt⟩
            intro q hq
            rcases List.mem_map.mp hq with ⟨q0, hq0, rfl⟩
            have hu2mem : user2 ∈ db.rows := List.mem_of_find?_eq_some hu2
            by_cases hq0j : q0.id = j
            · simpa [hq0j] using habs user2 hu2mem
            · simpa [hq0j] using habs q0 hq0

theorem updateUser_ne_notFound {db : Db} {i : Nat} {p : UpdateUserDTO} {user : UserRec}
    (hu : getUserById db i = some user) :
    updateUser db i p ≠ Except.error SvcError.notFound := by
  intro h
  unfold updateUser at h
  split at h
  · rename_i heq
    rw [hu] at heq
    simp at heq
  · split at h
    · simp at h
    · split at h
      · simp at h
      · unfold Db.updateRowById at h
        split at h
        · simp at h
        · dsimp only at h
          split at h
          · simp at h
          · simp at h

theorem idAbsent_delete {db db2 : Db} {j : Nat} {b : Bool} {i : Nat}
    (h : deleteUser db j = .ok (b, db2)) (hp : IdAbsent i db) : IdAbsent i db2 := by
  obtain ⟨habs, hlt⟩ := hp
  unfold deleteUser at h
  split at h
  · simp at h
  · simp only [Except.ok.injEq, Prod.mk.injEq] at h
    obtain ⟨-, hdb⟩ := h
    subst hdb
    exact ⟨fun q hq => habs q (List.mem_of_mem_filter hq), hlt⟩

theorem updateUser_write {db : Db} {i : Nat} {user : UserRec} {nn ne : Option String}
    (hget : getUserById db i = some user)
    (hconf : emailConflict db user ne = false)
    (hnotempty : (nn == none && ne == none) = false)
    (hfree : ∀ q ∈ db.rows, q.id ≠ i → q.email ≠ ne.getD user.email) :
    updateUser db i { name := nn, email := ne } =
      .ok ({ user with
              name := nn.getD user.name,
              email := ne.getD user.email,
              updated_at := db.time + 1 },
           { rows := db.rows.map (fun q => if q.id == i then
               { user with
                  name := nn.getD user.name,
                  email := ne.getD user.email,
                  updated_at := db.time + 1 } else q),
             nextId := db.nextId, time := db.time + 1 }) := by
  unfold updateUser
  rw [hget]
  dsimp only
  rw [hconf, hnotempty]
  simp only [Bool.false_eq_true, if_false]
  exact updateRowById_ok hget hfree

/-- Claim C1: email uniqueness is an invariant of the store state: in every
state reachable by any sequence of createUser/updateUser/deleteUser calls
starting from the empty store, the emails of the present records are
pairwise distinct; every operation preserves the predicate. -/
theorem c1_email_uniqueness_invariant {db : Db} (hreach : Reachable db) :
    EmailsUnique db :=
  (wf_of_reachable hreach).2.2.1

theorem c1_email_uniqueness_invariant_witness :
    Reachable dbAnn ∧ EmailsUnique dbAnn :=
  have h : Reachable dbAnn :=
    @Reachable.create Db.empty { name := "Ann", email := "ann@x.com" } uAnn dbAnn
      Reachable.empty rfl
  ⟨h, c1_email_uniqueness_invariant h⟩

/-- Claim C3: for every store state containing a record with email e,
createUser with that email fails with Conflict(EmailExists) for every name
value; the throw happens before the INSERT is issued, so no record is
inserted (an error outcome carries no successor state in this encoding and
the caller keeps the unchanged store). -/
theorem c3_create_conflict {db : Db} {e : String} {r : UserRec}
    (h : getUserByEmail db e = some r) (nm : String) :
    createUser db { name := nm, email := e } = .error .emailExists := by
  simp [createUser, h]

theorem c3_create_conflict_witness :
    getUserByEmail dbAnn "ann@x.com" = some uAnn ∧
    createUser dbAnn { name := "Bob", email := "ann@x.com" } = .error .emailExists :=
  ⟨rfl, c3_create_conflict (show getUserByEmail dbAnn "ann@x.com" = some uAnn from rfl) "Bob"⟩

/-- Claim C5: the static getUserById fails with NotFound exactly when no
present record has the requested id, and updateUser / deleteUser fail with
NotFound (propagated from the initial fetch) exactly when no present record
has the requested id. -/
theorem c5_notfound_iff_absent (db : Db) (i : Nat) (p : UpdateUserDTO) :
    (getUserByIdStatic db i = .error .notFound ↔ ∀ r ∈ db.rows, r.id ≠ i) ∧
    (updateUser db i p = .error .notFound ↔ ∀ r ∈ db.rows, r.id ≠ i) ∧
    (deleteUser db i = .error .notFound ↔ ∀ r ∈ db.rows, r.id ≠ i) := by
  cases hu : getUserById db i with
  | none =>
    have habs := getUserById_eq_none.mp hu
    refine ⟨?_, ?_, ?_⟩ <;>
      · simp [getUserByIdStatic, updateUser, deleteUser, hu]
        exact habs
  | some user =>
    have hmem := (getUserById_mem hu).1
    have hid := (getUserById_mem hu).2
    have hpres : ¬ (∀ r ∈ db.rows, r.id ≠ i) := fun hall => hall user hmem hid
    refine ⟨?_, ?_, ?_⟩
    · simp [getUserByIdStatic, hu, hpres]
    · exact ⟨fun hupd => absurd hupd (updateUser_ne_notFound hu),
        fun hall => absurd hall hpres⟩
    · simp [deleteUser, hu, hpres]

/-- Claim C2 counterexample: the claim also covers a patch whose supplied
values equal the current values, but the code short-circuits only when the
SET list is empty (both fields undefined).  On the concrete store holding
only Ann, updateUser(1, {name: "Ann"}) re-supplies the current name, yet the
call issues an UPDATE: the returned record carries updated_at 2 instead of
the pre-call 1, and the store state changes. -/
theorem c2_noop_update_counterexample :
    getUserById dbAnn 1 = some uAnn ∧
    uAnn.name = "Ann" ∧ uAnn.updated_at = 1 ∧
    updateUser dbAnn 1 { name := some "Ann", email := none } =
      .ok ({ uAnn with updated_at := 2 },
           { rows := [{ uAnn with updated_at := 2 }], nextId := 2, time := 2 }) ∧
    ({ uAnn with updated_at := 2 } : UserRec) ≠ uAnn ∧
    ({ rows := [{ uAnn with updated_at := 2 }], nextId := 2, time := 2 } : Db) ≠ dbAnn := by
  refine ⟨rfl, rfl, rfl, rfl, ?_, ?_⟩ <;> decide

/-- Claim C2 (amended): the idempotent no-op applies exactly to a patch that
supplies no fields: for every present record, updateUser with both fields
absent returns the fetched record unchanged (updated_at included) and issues
no write, the returned store state being the input state.  A patch that
re-supplies a current value is not short-circuited: it issues a write and
updated_at is refreshed (see the counterexample). -/
theorem c2_noop_update_amended {db : Db} {i : Nat} {user : UserRec}
    (hget : getUserById db i = some user) :
    updateUser db i { name := none, email := none } = .ok (user, db) := by
  unfold updateUser
  rw [hget]
  dsimp only
  rw [emailConflict_none db user]
  simp

theorem c2_noop_update_amended_witness :
    getUserById dbAnn 1 = some uAnn ∧
    updateUser dbAnn 1 { name := none, email := none } = .ok (uAnn, dbAnn) :=
  ⟨rfl, c2_noop_update_amended rfl⟩

/-- Claim C4: for every present record r of a store with pairwise distinct
emails, updateUser with patch.email equal to r's current email never fails
with Conflict(EmailExists): the guard requires the patched email to differ
from the current value, so the uniqueness lookup is skipped, and the call
succeeds (whatever optional name accompanies the patch). -/
theorem c4_self_email_update {db : Db} {i : Nat} {r : UserRec} (pn : Option String)
    (hem : EmailsUnique db) (hget : getUserById db i = some r) :
    ∃ r2 db2, updateUser db i { name := pn, email := some r.email } = .ok (r2, db2) :=
  ⟨_, _, @updateUser_write db i r pn (some r.email) hget (emailConflict_self db r)
    (by simp) (by simpa using emails_free_of_unique hem hget)⟩

theorem c4_self_email_update_witness :
    EmailsUnique dbAnn ∧ getUserById dbAnn 1 = some uAnn ∧
    ∃ r2 db2, updateUser dbAnn 1 { name := none, email := some uAnn.email } = .ok (r2, db2) :=
  have hem : EmailsUnique dbAnn := by simp [EmailsUnique, dbAnn]
  ⟨hem, rfl, c4_self_email_update none hem rfl⟩

/-- Claim C7: for every present record r of a well-formed store, a name-only
update leaves id, email and created_at unchanged while the store refreshes
updated_at, which strictly advances; the returned record differs from the
pre-call record only in name and updated_at. -/
theorem c7_update_name_frame {db : Db} {i : Nat} {r : UserRec} (n : String)
    (hwf : WF db) (hget : getUserById db i = some r) :
    ∃ r2 db2, updateUser db i { name := some n, email := none } = .ok (r2, db2) ∧
      r2.id = r.id ∧ r2.email = r.email ∧ r2.created_at = r.created_at ∧
      r2.name = n ∧ r.updated_at < r2.updated_at := by
  obtain ⟨-, -, hem, htm⟩ := hwf
  have hmem := (getUserById_mem hget).1
  have heq := @updateUser_write db i r (some n) none hget (emailConflict_none db r)
      (by simp) (by simpa using emails_free_of_unique hem hget)
  exact ⟨_, _, heq, rfl, rfl, rfl, rfl, Nat.lt_succ_of_le (htm r hmem).2⟩

theorem c7_update_name_frame_witness :
    WF dbAnn ∧ getUserById dbAnn 1 = some uAnn ∧
    ∃ r2 db2, updateUser dbAnn 1 { name := some "Ann2", email := none } = .ok (r2, db2) ∧
      r2.id = uAnn.id ∧ r2.email = uAnn.email ∧ r2.created_at = uAnn.created_at ∧
      r2.name = "Ann2" ∧ uAnn.updated_at < r2.updated_at :=
  have hwf : WF dbAnn := wf_of_reachable
    (@Reachable.create Db.empty { name := "Ann", email := "ann@x.com" } uAnn dbAnn
      Reachable.empty rfl)
  ⟨hwf, rfl, c7_update_name_frame "Ann2" hwf rfl⟩

/-- Claim C9: getAllUsers returns all present records (a permutation of the
store rows), ordered by created_at descending, for every store state. -/
theorem c9_list_sorted_desc (db : Db) :
    (getAllUsers db).Perm db.rows ∧
    (getAllUsers db).Pairwise (fun a b => b.created_at ≤ a.created_at) := by
  constructor
  · exact List.mergeSort_perm db.rows _
  · have h := @List.sorted_mergeSort UserRec
      (fun a b => decide (b.created_at ≤ a.created_at))
      (fun a b c hab hbc => by
        simp only [decide_eq_true_eq] at *
        omega)
      (fun a b => by
        simp only [Bool.or_eq_true, decide_eq_true_eq]
        omega)
      db.rows
    refine h.imp ?_
    intro a b hab
    simpa using hab

/-- Claim C8: round-trip on create: for every well-formed store state and
every input whose email is not already present, createUser succeeds and the
record it returns, immediately fetched via getUserById at the returned id,
is field-for-field identical to the returned record. -/
theorem c8_create_roundtrip {db : Db} {d : CreateUserDTO}
    (hwf : WF db) (habs : getUserByEmail db d.email = none) :
    ∃ r db2, createUser db d = .ok (r, db2) ∧ getUserById db2 r.id = some r := by
  obtain ⟨hid, -, -, -⟩ := hwf
  have habs2 := getUserByEmail_eq_none.mp habs
  have hany : (db.rows.any fun q => q.email == d.email) = false := by
    by_contra hc
    rw [Bool.not_eq_false, List.any_eq_true] at hc
    obtain ⟨q, hq, hqe⟩ := hc
    exact habs2 q hq (by simpa using hqe)
  have hcr : createUser db d = .ok
      ({ id := db.nextId, name := d.name, email := d.email,
         created_at := db.time + 1, updated_at := db.time + 1 },
       { rows := db.rows ++
           [{ id := db.nextId, name := d.name, email := d.email,
              created_at := db.time + 1, updated_at := db.time + 1 }],
         nextId := db.nextId + 1, time := db.time + 1 }) := by
    unfold createUser Db.insertUser
    rw [habs, hany]
    simp
  refine ⟨_, _, hcr, ?_⟩
  have h1 : db.rows.find? (fun q => q.id == db.nextId) = none := by
    rw [List.find?_eq_none]
    intro q hq
    simpa using Nat.ne_of_lt (hid q hq)
  simp [getUserById, Db.selectById, h1]

theorem c8_create_roundtrip_witness :
    WF dbAnn ∧ getUserByEmail dbAnn "bob@x.com" = none ∧
    ∃ r db2, createUser dbAnn { name := "Bob", email := "bob@x.com" } = .ok (r, db2) ∧
      getUserById db2 r.id = some r :=
  have hwf : WF dbAnn := wf_of_reachable
    (@Reachable.create Db.empty { name := "Ann", email := "ann@x.com" } uAnn dbAnn
      Reachable.empty rfl)
  ⟨hwf, rfl, c8_create_roundtrip hwf rfl⟩

/-- Claim C6: delete is terminal: from any reachable store, once deleteUser
succeeds on a present id, every subsequently reachable store yields NotFound
for getUserById on that id and for a second deleteUser, and no later
createUser ever returns that id (AUTOINCREMENT never reuses it). -/
theorem c6_delete_terminal {db : Db} {i : Nat} {r : UserRec} {b : Bool} {db2 : Db}
    (hreach : Reachable db) (hget : getUserById db i = some r)
    (hdel : deleteUser db i = .ok (b, db2)) :
    ∀ db3, ReachableFrom db2 db3 →
      getUserByIdStatic db3 i = .error .notFound ∧
      deleteUser db3 i = .error .notFound ∧
      (∀ d r2 db4, createUser db3 d = .ok (r2, db4) → r2.id ≠ i) := by
  have hwf := wf_of_reachable hreach
  have hP2 : IdAbsent i db2 := by
    obtain ⟨hmem, hid⟩ := getUserById_mem hget
    unfold deleteUser at hdel
    rw [hget] at hdel
    dsimp only at hdel
    simp only [Except.ok.injEq, Prod.mk.injEq] at hdel
    obtain ⟨-, hdb⟩ := hdel
    subst hdb
    constructor
    · intro q hq
      have := List.mem_filter.mp hq
      simpa using this.2
    · rw [← hid]
      exact hwf.1 r hmem
  intro db3 hrf
  have hP3 : IdAbsent i db3 := by
    induction hrf with
    | refl => exact hP2
    | create _ hc ih => exact idAbsent_create hc ih
    | update _ hc ih => exact idAbsent_update hc ih
    | delete _ hc ih => exact idAbsent_delete hc ih
  obtain ⟨habs, hlt⟩ := hP3
  have hnone : getUserById db3 i = none := getUserById_eq_none.mpr habs
  refine ⟨?_, ?_, ?_⟩
  · simp [getUserByIdStatic, hnone]
  · simp [deleteUser, hnone]
  · intro d r2 db4 hc
    unfold createUser Db.insertUser at hc
    split at hc
    · simp at hc
    · split at hc
      · simp at hc
      · simp only [Except.ok.injEq, Prod.mk.injEq] at hc
        obtain ⟨hr2, -⟩ := hc
        subst hr2
        exact Nat.ne_of_gt hlt

theorem c6_delete_terminal_witness :
    Reachable dbAnn ∧ getUserById dbAnn 1 = some uAnn ∧
    deleteUser dbAnn 1 = .ok (true, dbAnnDel) ∧
    (getUserByIdStatic dbAnnDel 1 = .error .notFound ∧
     deleteUser dbAnnDel 1 = .error .notFound ∧
     (∀ d r2 db4, createUser dbAnnDel d = .ok (r2, db4) → r2.id ≠ 1)) :=
  have hre : Reachable dbAnn :=
    @Reachable.create Db.empty { name := "Ann", email := "ann@x.com" } uAnn dbAnn
      Reachable.empty rfl
  have hdel : deleteUser dbAnn 1 = .ok (true, dbAnnDel) := rfl
  ⟨hre, rfl, hdel,
    c6_delete_terminal hre (show getUserById dbAnn 1 = some uAnn from rfl) hdel
      dbAnnDel (ReachableFrom.refl dbAnnDel)⟩

/-- Claim C10 counterexample: the claim asserts that for EVERY present
record, updateUser(id, {email: ""}) skips the uniqueness check and still
writes the empty-string email.  The guard is indeed skipped (truthiness),
but the write is not unconditional: on the concrete store where another
record already owns the empty-string email, the UPDATE violates the UNIQUE
constraint on email declared in database.ts and fails with a store-level
fault, writing nothing. -/
theorem c10_empty_email_counterexample :
    getUserById dbEB 2 = some uB ∧
    updateUser dbEB 2 { name := none, email := some "" } = .error .storeFault :=
  ⟨rfl, rfl⟩

/-- Claim C10 (amended): updateUser raises Conflict(EmailExists) only when
patch.email is a non-empty string that differs from the current email and is
owned by some record; and for every present record such that no other record
owns the empty-string email, updateUser(id, {email: ""}) performs no
uniqueness check, issues the write (presence test with undefined), and the
written record carries the empty-string email.  When another record already
owns "", the store's UNIQUE constraint rejects the write with a store fault
instead (see the counterexample). -/
theorem c10_empty_email_amended :
    (∀ (db : Db) (i : Nat) (p : UpdateUserDTO), updateUser db i p = .error .emailExists →
      ∃ user, getUserById db i = some user ∧
        ∃ e, p.email = some e ∧ e ≠ "" ∧ e ≠ user.email ∧
          (getUserByEmail db e).isSome = true) ∧
    (∀ (db : Db) (i : Nat) (user : UserRec), getUserById db i = some user →
      (∀ q ∈ db.rows, q.id ≠ i → q.email ≠ "") →
      ∃ r2 db2, updateUser db i { name := none, email := some "" } = .ok (r2, db2) ∧
        r2.email = "") := by
  constructor
  · intro db i p h
    unfold updateUser at h
    split at h
    · simp at h
    · rename_i user hu
      split at h
      · rename_i hconf
        refine ⟨user, hu, ?_⟩
        unfold emailConflict at hconf
        split at hconf
        · simp at hconf
        · rename_i e hpe
          simp only [Bool.and_eq_true, bne_iff_ne] at hconf
          exact ⟨e, hpe, hconf.1.1, hconf.1.2, hconf.2⟩
      · split at h
        · simp at h
        · unfold Db.updateRowById at h
          split at h
          · simp at h
          · dsimp only at h
            split at h
            · simp at h
            · simp at h
  · intro db i user hget hfree
    have heq := @updateUser_write db i user none (some "") hget (emailConflict_empty db user)
        (by simp) (by simpa using hfree)
    exact ⟨_, _, heq, rfl⟩

theorem c10_empty_email_amended_witness :
    (updateUser dbAB 2 { name := none, email := some "a@x.com" } = .error .emailExists ∧
      ∃ user, getUserById dbAB 2 = some user ∧
        ∃ e, (some "a@x.com" : Option String) = some e ∧ e ≠ "" ∧ e ≠ user.email ∧
          (getUserByEmail dbAB e).isSome = true) ∧
    (getUserById dbAnn 1 = some uAnn ∧
      ∃ r2 db2, updateUser dbAnn 1 { name := none, email := some "" } = .ok (r2, db2) ∧
        r2.email = "") :=
  ⟨⟨rfl, c10_empty_email_amended.1 dbAB 2 { name := none, email := some "a@x.com" } rfl⟩,
   ⟨rfl, c10_empty_email_amended.2 dbAnn 1 uAnn rfl (by decide)⟩⟩

end UserApi
